import Mathlib

/-!
# Verification of the ai-investment-advisor task engine and analysis pipeline

Shallow embedding of the core of the `investment_advisor` package:

* `core/session.py`   — `SessionMemory` (symbol memory, recent symbols)
* `core/reasoning.py` — `TaskPlanner._extract_symbols`, `TaskExecutor`
  (`execute_plan`, `_sort_tasks_by_dependencies`, `_execute_task`)
* `analysis/backtesting.py` — `SimpleBacktester.execute`,
  `StrategyComparison.create_comparison_summary`
* `analysis/technical.py` — `TechnicalAnalyzer.calculate_rsi`

Pandas series are modelled as lists over `Option ℚ` (`none` = NaN) or as
index functions `ℕ → Option ℚ`; the float special values produced by the
RSI division are modelled by the four-way type `PFloat`
(`nan`/`inf`/`ninf`/finite rational).  Python dictionaries are modelled as
insertion-ordered association lists with update-in-place semantics.
-/

/-! ## Python value model

Opaque Python values passed between tasks (`ToolResult.data`, task
parameters).  Dictionaries keep insertion order, as Python dicts do;
`PyFields` is the entry list of a dict. -/

mutual
inductive PyVal where
  | vnone : PyVal
  | vbool (b : Bool) : PyVal
  | vnum (q : ℚ) : PyVal
  | vstr (s : String) : PyVal
  | vdict (fields : PyFields) : PyVal
  deriving DecidableEq
inductive PyFields where
  | nil : PyFields
  | cons (key : String) (val : PyVal) (rest : PyFields) : PyFields
  deriving DecidableEq
end

/-- Python `d.get(k)` lookup on an insertion-ordered dict (keys are unique
in a Python dict, so first match is the match). -/
def PyFields.get : PyFields → String → Option PyVal
  | .nil, _ => none
  | .cons k' v rest, k => if k' = k then some v else rest.get k

/-- Python `d[k] = v`: update in place if the key exists (keeping its
position), otherwise append at the end. -/
def PyFields.set : PyFields → String → PyVal → PyFields
  | .nil, k, v => .cons k v .nil
  | .cons k' v' rest, k, v =>
      if k' = k then .cons k' v rest else .cons k' v' (rest.set k v)

/-- The keys of a dict, in insertion order. -/
def PyFields.keys : PyFields → List String
  | .nil => []
  | .cons k _ rest => k :: rest.keys

/-! ## SessionMemory (`core/session.py`)

Only the fields the executor touches are modelled: `symbols_analyzed` and
`last_analysis_results`.  `datetime.now()` timestamps are outside a pure
embedding and are dropped from the stored record; no claim mentions them. -/

structure SessionMemory where
  symbols_analyzed : List PyVal
  last_analysis_results : List (PyVal × PyFields)
  deriving DecidableEq

def SessionMemory.init : SessionMemory := ⟨[], []⟩

/-- `SessionMemory.remember_symbol`: append iff not already present. -/
def remember_symbol (s : SessionMemory) (symbol : PyVal) : SessionMemory :=
  if symbol ∈ s.symbols_analyzed then s
  else { s with symbols_analyzed := s.symbols_analyzed ++ [symbol] }

/-- `SessionMemory.get_recent_symbols`: Python `l[-count:]`.  For
`count = 0` the slice `[-0:]` is `[0:]`, i.e. the whole list. -/
def get_recent_symbols (s : SessionMemory) (count : Nat) : List PyVal :=
  if count = 0 then s.symbols_analyzed
  else s.symbols_analyzed.drop (s.symbols_analyzed.length - count)

/-- `SessionMemory.store_analysis_result` (timestamp dropped): nested-dict
update `last_analysis_results[symbol][analysis_type] = {result: ...}`. -/
def store_analysis_result (s : SessionMemory) (symbol : PyVal)
    (analysisType : String) (result : PyVal) : SessionMemory :=
  let inner :=
    match s.last_analysis_results.lookup symbol with
    | some d => d
    | none => .nil
  let inner' := inner.set analysisType result
  let outer :=
    if (s.last_analysis_results.lookup symbol).isSome then
      s.last_analysis_results.map
        (fun p => if p.1 = symbol then (p.1, inner') else p)
    else
      s.last_analysis_results ++ [(symbol, inner')]
  { s with last_analysis_results := outer }

/-! ## ToolResult, tools, registry (`core/base.py`)

`ToolResult(success, data=None, error=None)`.  A tool collaborator is a pure
function from keyword parameters to either a `ToolResult` or a raised
exception, modelled as `Except String ToolResult` with the exception's
message in the `error` branch. -/

structure ToolResult where
  success : Bool
  data : PyVal := PyVal.vnone
  error : Option String := none
  deriving DecidableEq

def Tool : Type := PyFields → Except String ToolResult

/-- `ToolRegistry`: dictionary of tools keyed by name. -/
abbrev Registry : Type := List (String × Tool)

/-- `ToolRegistry.get_tool`. -/
def Registry.get_tool (reg : Registry) (name : String) : Option Tool :=
  match reg with
  | [] => none
  | (k, t) :: rest => if k = name then some t else Registry.get_tool rest name

/-! ## Tasks and the executor (`core/reasoning.py`)

`Task` keeps the fields the executor reads: `task_id`, `tool_name`,
`parameters`, `dependencies` (`task_type` plays no role in execution). -/

structure PTask where
  task_id : String
  tool_name : String
  parameters : PyFields
  dependencies : List String
  deriving DecidableEq

/-- The executor's `execution_results` dict: task id → outcome, in insertion
order with Python's update-in-place semantics. -/
abbrev ResultMap : Type := List (String × ToolResult)

def ResultMap.get (rm : ResultMap) (k : String) : Option ToolResult :=
  match rm with
  | [] => none
  | (k', v) :: rest => if k' = k then some v else ResultMap.get rest k

/-- `execution_results[task_id] = result`. -/
def ResultMap.set (rm : ResultMap) (k : String) (v : ToolResult) : ResultMap :=
  match rm with
  | [] => [(k, v)]
  | (k', v') :: rest =>
      if k' = k then (k', v) :: rest else (k', v') :: ResultMap.set rest k v

/-- The eligibility test of `_sort_tasks_by_dependencies`:
`task.task_id not in completed and can_execute(task)` where
`can_execute(task) = all(dep in completed for dep in task.dependencies)`. -/
def can_pick (completed : List String) (t : PTask) : Bool :=
  !completed.contains t.task_id && t.dependencies.all completed.contains

/-- One pass of the inner `for task in tasks` scan: the first pending task
whose dependencies are all completed, if any. -/
def scan_pick (tasks : List PTask) (completed : List String) : Option PTask :=
  tasks.find? (can_pick completed)

/-- The `while len(sorted_tasks) < len(tasks)` loop of
`_sort_tasks_by_dependencies`, made total with a fuel argument: each unit of
fuel is one pass of the scan.  A pass that picks no task leaves the state
unchanged (in Python the loop then spins forever; here the fuel eventually
runs out, so `none` for every fuel means the Python loop never terminates).
The `completed` set is exactly the ids of the tasks picked so far. -/
def sort_tasks_aux (tasks : List PTask) : Nat → List PTask → Option (List PTask)
  | 0, _ => none
  | fuel + 1, acc =>
      if acc.length < tasks.length then
        match scan_pick tasks (acc.map PTask.task_id) with
        | some t => sort_tasks_aux tasks fuel (acc ++ [t])
        | none => sort_tasks_aux tasks fuel acc
      else
        some acc

/-- `TaskExecutor._sort_tasks_by_dependencies`.  `tasks.length + 1` passes
are exactly what a terminating run of the Python loop uses: one productive
pass per task plus the final condition check. -/
def sort_tasks_by_dependencies (tasks : List PTask) : Option (List PTask) :=
  sort_tasks_aux tasks (tasks.length + 1) []

/-- The dependency-merging prologue of `TaskExecutor._execute_task`
(lines 433–440): for each dependency id in order, if it has an outcome and
that outcome succeeded, store its data under
`params['dependency_data'][dep_id]`.  (A pre-seeded non-dict
`'dependency_data'` parameter would make Python raise at the item
assignment; the planner never produces one, and we start from an empty dict
in that unreachable case.) -/
def prepare_params (params : PyFields) (deps : List String)
    (results : ResultMap) : PyFields :=
  deps.foldl
    (fun ps dep =>
      match results.get dep with
      | some depResult =>
          if depResult.success then
            let bag :=
              match ps.get ("dependency_data") with
              | some (PyVal.vdict d) => d
              | _ => PyFields.nil
            ps.set ("dependency_data") (PyVal.vdict (bag.set dep depResult.data))
          else ps
      | none => ps)
    params

/-- `TaskExecutor._execute_task`: registry lookup, dependency merging, tool
invocation with the raised-fault catch, and the session-memory update on
success.  Returns the outcome together with the updated session. -/
def execute_task (reg : Registry) (results : ResultMap) (session : SessionMemory)
    (t : PTask) : ToolResult × SessionMemory :=
  match reg.get_tool t.tool_name with
  | none =>
      ({ success := false
         error := some ("Tool " ++ t.tool_name ++ " not found in registry") },
       session)
  | some tool =>
      let params := prepare_params t.parameters t.dependencies results
      match tool params with
      | Except.error e =>
          ({ success := false
             error := some ("Task execution failed: " ++ e) }, session)
      | Except.ok r =>
          let session' :=
            if r.success then
              match params.get ("symbol") with
              | some v =>
                  store_analysis_result (remember_symbol session v) v
                    t.tool_name r.data
              | none => session
            else session
          (r, session')

/-- The execution loop of `execute_plan` (lines 394–401): run each task of
the sorted list in order, recording `execution_results[task.task_id]`;
a failed outcome is recorded and the loop continues. -/
def run_tasks (reg : Registry) : List PTask → ResultMap → SessionMemory →
    ResultMap × SessionMemory
  | [], rm, session => (rm, session)
  | t :: rest, rm, session =>
      let (r, session') := execute_task reg rm session t
      run_tasks reg rest (rm.set t.task_id r) session'

/-- `TaskExecutor.execute_plan`: sort by dependencies, then execute in that
order.  `none` models the Python loop never returning. -/
def execute_plan (reg : Registry) (session : SessionMemory)
    (tasks : List PTask) : Option (ResultMap × SessionMemory) :=
  (sort_tasks_by_dependencies tasks).map
    (fun sorted => run_tasks reg sorted [] session)

/-! ## Pandas series operations (`analysis/backtesting.py`)

A series is a `List (Option ℚ)` aligned to the row index; `none` models NaN.
All inputs in scope are finite, so exact rationals model the float
arithmetic; the only NaNs that arise come from `diff()` at index 0, and
`cumsum` (pandas default `skipna=True`) leaves a NaN in place without
poisoning later entries. -/

def seriesDiffFrom (prev : ℚ) : List ℚ → List (Option ℚ)
  | [] => []
  | x :: rest => some (x - prev) :: seriesDiffFrom x rest

/-- `Series.diff()`: first entry NaN, then successive differences. -/
def seriesDiff (xs : List ℚ) : List (Option ℚ) :=
  match xs with
  | [] => []
  | x :: rest => none :: seriesDiffFrom x rest

/-- Elementwise product of an Option-series with a plain series
(`positions * price`); NaN propagates. -/
def seriesMul (xs : List (Option ℚ)) (ys : List ℚ) : List (Option ℚ) :=
  List.zipWith (fun o p => o.map (fun q => q * p)) xs ys

/-- Elementwise sum of two Option-series; NaN propagates. -/
def seriesAdd (xs ys : List (Option ℚ)) : List (Option ℚ) :=
  List.zipWith (fun a b => Option.bind a (fun x => b.map (fun y => x + y))) xs ys

/-- Elementwise difference of two Option-series; NaN propagates. -/
def seriesSub (xs ys : List (Option ℚ)) : List (Option ℚ) :=
  List.zipWith (fun a b => Option.bind a (fun x => b.map (fun y => x - y))) xs ys

/-- Elementwise absolute value; NaN propagates. -/
def seriesAbs (xs : List (Option ℚ)) : List (Option ℚ) :=
  xs.map (fun o => o.map (fun q => |q|))

/-- Scalar minus series (`initial_capital - cumsum`). -/
def seriesScalarSub (c : ℚ) (xs : List (Option ℚ)) : List (Option ℚ) :=
  xs.map (fun o => o.map (fun q => c - q))

/-- Series times scalar (`... * commission`). -/
def seriesScalarMul (xs : List (Option ℚ)) (c : ℚ) : List (Option ℚ) :=
  xs.map (fun o => o.map (fun q => q * c))

def seriesCumsumFrom (acc : ℚ) : List (Option ℚ) → List (Option ℚ)
  | [] => []
  | none :: rest => none :: seriesCumsumFrom acc rest
  | some x :: rest => some (acc + x) :: seriesCumsumFrom (acc + x) rest

/-- `Series.cumsum()` with pandas' default `skipna=True`: a NaN entry stays
NaN and does not contribute to the running total. -/
def seriesCumsum (xs : List (Option ℚ)) : List (Option ℚ) :=
  seriesCumsumFrom 0 xs

/-- `Series.pct_change()`: `(x[i] - x[i-1]) / x[i-1]`, NaN at index 0 or
when either operand is NaN.  (In the backtester NaNs occur only at index 0,
so the default pad fill never changes anything.  A zero previous value would
give an IEEE infinity; it is modelled as undefined, and no claim in scope
divides by a zero total.) -/
def seriesPctChange (xs : List (Option ℚ)) : List (Option ℚ) :=
  (List.range xs.length).map (fun i =>
    if i = 0 then none
    else
      match xs.getD (i - 1) none, xs.getD i none with
      | some p, some c => if p = 0 then none else some ((c - p) / p)
      | _, _ => none)

/-! ## `SimpleBacktester.execute` (`analysis/backtesting.py`, lines 18–63)

The portfolio DataFrame, column by column, in the order the code fills it.
`total` is the column after the in-place commission adjustment of line 38;
`totalPre` names its value as of line 33, from which `returns` (line 34) is
computed before the adjustment. -/

structure PortfolioFrame where
  price : List ℚ
  signalsCol : List ℚ
  positions : List (Option ℚ)
  holdings : List (Option ℚ)
  cash : List (Option ℚ)
  returns : List (Option ℚ)
  commission : List (Option ℚ)
  total : List (Option ℚ)
  deriving DecidableEq

def backtester_execute (close : List ℚ) (signals : List ℚ)
    (initial_capital : ℚ) (commissionRate : ℚ) : PortfolioFrame :=
  let positions := seriesDiff signals
  let flow := seriesCumsum (seriesMul positions close)
  let holdings := flow
  let cash := seriesScalarSub initial_capital flow
  let totalPre := seriesAdd cash holdings
  let returns := seriesPctChange totalPre
  let commission := seriesScalarMul (seriesMul (seriesAbs positions) close) commissionRate
  let total := seriesSub totalPre (seriesCumsum commission)
  { price := close, signalsCol := signals, positions := positions,
    holdings := holdings, cash := cash, returns := returns,
    commission := commission, total := total }

/-! ## `StrategyComparison.create_comparison_summary`
(`analysis/backtesting.py`, lines 174–188) -/

/-- The scalar performance metrics of one backtested strategy that the
summary reads (`performance_metrics[...]`). -/
structure StrategyMetrics where
  total_return : ℚ
  sharpe : ℚ
  max_drawdown : ℚ
  volatility : ℚ
  deriving DecidableEq

/-- Python `max(values, key=f)`: first element with maximal key. -/
def pyMaxBy (f : ℚ → ℚ) : List ℚ → Option ℚ
  | [] => none
  | x :: rest => some (rest.foldl (fun acc y => if f acc < f y then y else acc) x)

/-- Python `min(values, key=f)`: first element with minimal key. -/
def pyMinBy (f : ℚ → ℚ) : List ℚ → Option ℚ
  | [] => none
  | x :: rest => some (rest.foldl (fun acc y => if f y < f acc then y else acc) x)

structure MetricSummary where
  best : ℚ
  worst : ℚ
  average : ℚ
  deriving DecidableEq

/-- One row of the summary:
`best = max(values) if metric != 'max_drawdown' else max(values, key=abs)`,
`worst = min(values) if metric != 'max_drawdown' else min(values, key=abs)`,
`average = sum(values) / len(values)`. -/
def summarize_metric (values : List ℚ) (isDrawdown : Bool) : MetricSummary :=
  { best := ((if isDrawdown then pyMaxBy abs values else pyMaxBy id values).getD 0)
    worst := ((if isDrawdown then pyMinBy abs values else pyMinBy id values).getD 0)
    average := values.sum / values.length }

structure ComparisonSummary where
  total_return : MetricSummary
  sharpe : MetricSummary
  max_drawdown : MetricSummary
  volatility : MetricSummary
  deriving DecidableEq

/-- `StrategyComparison.create_comparison_summary` over the metrics of the
successfully backtested strategies, in dict order; `none` models the early
`{}` return on an empty results dict. -/
def create_comparison_summary (results : List StrategyMetrics) :
    Option ComparisonSummary :=
  match results with
  | [] => none
  | _ =>
      some
        { total_return := summarize_metric (results.map StrategyMetrics.total_return) false
          sharpe := summarize_metric (results.map StrategyMetrics.sharpe) false
          max_drawdown := summarize_metric (results.map StrategyMetrics.max_drawdown) true
          volatility := summarize_metric (results.map StrategyMetrics.volatility) false }

/-! ## RSI (`analysis/technical.py`, `TechnicalAnalyzer.calculate_rsi`)

`delta = close.diff()`; `gain = delta.where(delta > 0, 0).rolling(n).mean()`;
`loss = (-delta.where(delta < 0, 0)).rolling(n).mean()`; `rs = gain / loss`;
`rsi = 100 - 100 / (1 + rs)`.

`where` replaces the index-0 NaN by 0 (NaN compares false), so the rolling
windows contain no NaN and the mean is defined from index `n - 1` on.  The
division `gain / loss` follows IEEE float semantics: positive/0 = +inf,
0/0 = NaN.  `PFloat` models the arithmetic on these special values; signed
zeros are collapsed to 0 (they only flip +inf to −inf in `rs`, and
`100 - 100/(1 − inf) = 100 - 0 = 100 - (−0) = 100` either way). -/

inductive PFloat where
  | nan : PFloat
  | inf : PFloat
  | ninf : PFloat
  | val (q : ℚ) : PFloat
  deriving DecidableEq

def PFloat.pNeg : PFloat → PFloat
  | .nan => .nan
  | .inf => .ninf
  | .ninf => .inf
  | .val q => .val (-q)

def PFloat.pAdd : PFloat → PFloat → PFloat
  | .nan, _ => .nan
  | .inf, .nan => .nan
  | .ninf, .nan => .nan
  | .val _, .nan => .nan
  | .inf, .inf => .inf
  | .inf, .ninf => .nan
  | .inf, .val _ => .inf
  | .ninf, .inf => .nan
  | .ninf, .ninf => .ninf
  | .ninf, .val _ => .ninf
  | .val _, .inf => .inf
  | .val _, .ninf => .ninf
  | .val a, .val b => .val (a + b)

def PFloat.pSub (a b : PFloat) : PFloat := a.pAdd b.pNeg

/-- IEEE division on the modelled values (zero treated as +0). -/
def PFloat.pDiv : PFloat → PFloat → PFloat
  | .nan, _ => .nan
  | .inf, .nan => .nan
  | .ninf, .nan => .nan
  | .val _, .nan => .nan
  | .inf, .inf => .nan
  | .inf, .ninf => .nan
  | .ninf, .inf => .nan
  | .ninf, .ninf => .nan
  | .inf, .val b => if b < 0 then .ninf else .inf
  | .ninf, .val b => if b < 0 then .inf else .ninf
  | .val _, .inf => .val 0
  | .val _, .ninf => .val 0
  | .val a, .val b =>
      if b = 0 then (if 0 < a then .inf else if a < 0 then .ninf else .nan)
      else .val (a / b)

/-- `close.diff()` at index `i` (`none` = NaN / out of range). -/
def close_delta (close : List ℚ) (i : Nat) : Option ℚ :=
  if i = 0 then none
  else
    match close.get? i, close.get? (i - 1) with
    | some c, some p => some (c - p)
    | _, _ => some 0

/-- Entry `i` of `delta.where(delta > 0, 0)`: the index-0 NaN compares
false, so it becomes 0. -/
def rsi_gain_term (close : List ℚ) (i : Nat) : ℚ :=
  match close_delta close i with
  | some d => if 0 < d then d else 0
  | none => 0

/-- Entry `i` of `-delta.where(delta < 0, 0)`. -/
def rsi_loss_term (close : List ℚ) (i : Nat) : ℚ :=
  match close_delta close i with
  | some d => if d < 0 then -d else 0
  | none => 0

/-- `rolling(window=n).mean()` of the series `f` over indices `< len`:
defined once the window is filled (`n ≤ i + 1`); `rolling(0)` raises in
pandas, so the window must be positive. -/
def rolling_mean (f : Nat → ℚ) (n len i : Nat) : Option ℚ :=
  if i < len ∧ n ≤ i + 1 ∧ 1 ≤ n then
    some (((List.range n).map (fun k => f (i - k))).sum / n)
  else none

def average_gain (close : List ℚ) (n i : Nat) : Option ℚ :=
  rolling_mean (rsi_gain_term close) n close.length i

def average_loss (close : List ℚ) (n i : Nat) : Option ℚ :=
  rolling_mean (rsi_loss_term close) n close.length i

/-- `TechnicalAnalyzer.calculate_rsi` at index `i`, period `n`:
`rs = gain / loss`, `rsi = 100 - 100 / (1 + rs)` under float semantics. -/
def calculate_rsi_at (close : List ℚ) (n i : Nat) : PFloat :=
  match average_gain close n i, average_loss close n i with
  | some g, some l =>
      let rs := PFloat.pDiv (.val g) (.val l)
      PFloat.pSub (.val 100) (PFloat.pDiv (.val 100) (PFloat.pAdd (.val 1) rs))
  | _, _ => .nan

/-! ## Symbol extraction (`core/reasoning.py`, `TaskPlanner._extract_symbols`)

`re.findall(r'\b[A-Z]{1,5}\b', query.upper())` followed by the stop-list
filter.  A match of that pattern is exactly a maximal run of word characters
(`[A-Za-z0-9_]`; ASCII model of `\w`) that consists of 1–5 uppercase
letters, since `\b` holds only at the edges of such runs.  `str.upper` and
`Char.toUpper` agree on ASCII. -/

def isWordChar (c : Char) : Bool := c.isAlphanum || c = '_'

def wordRunsAux : List Char → List Char → List (List Char)
  | [], acc => if acc.isEmpty then [] else [acc.reverse]
  | c :: rest, acc =>
      if isWordChar c then wordRunsAux rest (c :: acc)
      else if acc.isEmpty then wordRunsAux rest []
      else acc.reverse :: wordRunsAux rest []

/-- The maximal runs of word characters of a string, in order. -/
def wordRuns (s : List Char) : List (List Char) := wordRunsAux s []

def isUpperAlpha (c : Char) : Bool := 'A' ≤ c && c ≤ 'Z'

/-- `re.findall(r'\b[A-Z]{1,5}\b', s)`. -/
def py_findall_symbols (s : List Char) : List (List Char) :=
  (wordRuns s).filter
    (fun r => r.all isUpperAlpha && decide (1 ≤ r.length) && decide (r.length ≤ 5))

/-- The fixed stop-list `common_words` of `_extract_symbols`. -/
def common_words : List (List Char) :=
  (["THE", "AND", "OR", "FOR", "TO", "OF", "IN", "ON", "AT", "BY", "IS",
    "ARE", "WAS", "WERE"] : List String).map String.toList

/-- `TaskPlanner._extract_symbols`: uppercase the query, find the candidate
tokens, drop stop-list words.  No deduplication is performed. -/
def extract_symbols (query : List Char) : List (List Char) :=
  let potential := py_findall_symbols (query.map Char.toUpper)
  potential.filter (fun t => !(common_words.contains t))

/-! ## Specification-side helper -/

/-- First-occurrence deduplication: keep each value's first occurrence, in
order.  Used to characterise what repeated `remember_symbol` calls build. -/
def firstOccDedup : List PyVal → List PyVal
  | [] => []
  | v :: rest => v :: firstOccDedup (rest.filter (fun x => decide (x ≠ v)))
termination_by l => l.length
decreasing_by
  simp only [List.length_cons]
  exact Nat.lt_succ_of_le (List.length_filter_le _ _)

/-! # Theorems -/

/-! ## Helper lemmas: session memory -/

theorem remember_symbol_mem (s : SessionMemory) (v : PyVal)
    (h : v ∈ s.symbols_analyzed) : remember_symbol s v = s := by
  simp [remember_symbol, h]

theorem remember_symbol_not_mem (s : SessionMemory) (v : PyVal)
    (h : v ∉ s.symbols_analyzed) :
    (remember_symbol s v).symbols_analyzed = s.symbols_analyzed ++ [v] := by
  simp [remember_symbol, h]

theorem foldl_remember_symbols (events : List PyVal) :
    ∀ s : SessionMemory,
      (events.foldl remember_symbol s).symbols_analyzed
        = s.symbols_analyzed
            ++ firstOccDedup
                (events.filter (fun v => decide (v ∉ s.symbols_analyzed))) := by
  induction events with
  | nil => intro s; simp [firstOccDedup]
  | cons v rest ih =>
      intro s
      by_cases hv : v ∈ s.symbols_analyzed
      · rw [List.foldl_cons, remember_symbol_mem s v hv, List.filter_cons]
        simp only [hv, not_true_eq_false, decide_False, if_false]
        exact ih s
      · rw [List.foldl_cons, List.filter_cons]
        simp only [hv, not_false_eq_true, decide_True, if_true]
        rw [ih (remember_symbol s v), remember_symbol_not_mem s v hv]
        rw [firstOccDedup.eq_2, List.append_assoc]
        congr 2
        rw [List.filter_filter, List.singleton_append]
        congr 2
        apply List.filter_congr
        intro x _
        by_cases hxv : x = v
        · subst hxv; simp
        · by_cases hxs : x ∈ s.symbols_analyzed <;>
            simp [hxv, hxs, List.mem_append]

theorem mem_firstOccDedup (x : PyVal) :
    ∀ l : List PyVal, x ∈ firstOccDedup l → x ∈ l := by
  intro l
  induction l using firstOccDedup.induct with
  | case1 => simp [firstOccDedup.eq_1]
  | case2 v rest ih =>
      rw [firstOccDedup.eq_2]
      intro h
      rcases List.mem_cons.mp h with h | h
      · exact h ▸ List.mem_cons_self _ _
      · exact List.mem_cons_of_mem _ (List.mem_of_mem_filter (ih h))

theorem nodup_firstOccDedup : ∀ l : List PyVal, (firstOccDedup l).Nodup := by
  intro l
  induction l using firstOccDedup.induct with
  | case1 => simp [firstOccDedup.eq_1]
  | case2 v rest ih =>
      rw [firstOccDedup.eq_2]
      refine List.Nodup.cons ?_ ih
      intro hmem
      have := List.of_mem_filter (mem_firstOccDedup v _ hmem)
      simp at this

/-! ## C10 — `remember_symbol` idempotence and `get_recent_symbols` -/

/-- C10 (amended): `remember_symbol` is idempotent — remembering an
already-recorded symbol leaves the session unchanged — so the
analyzed-symbols list built by any sequence of `remember_symbol` calls is
exactly the first-occurrence deduplication of that sequence (no duplicates,
ordered by first analysis, re-analysis does not move a symbol), and for
`n ≥ 1` `get_recent_symbols n` returns the last `min n total` of those
distinct symbols.  (For `n = 0` Python's `[-0:]` slice returns the whole
list, not the empty one — see the counterexample.) -/
theorem c10_remember_idempotent_recent :
    (∀ (s : SessionMemory) (v : PyVal),
        v ∈ s.symbols_analyzed → remember_symbol s v = s)
    ∧ (∀ events : List PyVal,
        (events.foldl remember_symbol SessionMemory.init).symbols_analyzed
          = firstOccDedup events)
    ∧ (∀ events : List PyVal,
        ((events.foldl remember_symbol SessionMemory.init).symbols_analyzed).Nodup)
    ∧ (∀ (s : SessionMemory) (n : Nat), 1 ≤ n →
        get_recent_symbols s n <:+ s.symbols_analyzed
        ∧ (get_recent_symbols s n).length = min n s.symbols_analyzed.length) := by
  have hfold : ∀ events : List PyVal,
      (events.foldl remember_symbol SessionMemory.init).symbols_analyzed
        = firstOccDedup events := by
    intro events
    rw [foldl_remember_symbols]
    have : events.filter
        (fun v => decide (v ∉ SessionMemory.init.symbols_analyzed)) = events := by
      apply List.filter_eq_self.mpr
      intro a _
      simp [SessionMemory.init]
    rw [this]
    simp [SessionMemory.init]
  refine ⟨remember_symbol_mem, hfold, ?_, ?_⟩
  · intro events
    rw [hfold]
    exact nodup_firstOccDedup events
  · intro s n hn
    have hne : n ≠ 0 := Nat.one_le_iff_ne_zero.mp hn
    constructor
    · simp only [get_recent_symbols, hne, if_false]
      exact List.drop_suffix _ _
    · simp only [get_recent_symbols, hne, if_false, List.length_drop]
      omega

/-- C10 witness: the theorem applied at a session that has analyzed `AAPL`
then `MSFT`: re-remembering `AAPL` is a no-op, the fold of the event list
`[AAPL, MSFT, AAPL]` records each symbol once in first-analysis order, and
`get_recent_symbols 1` is the one-element suffix. -/
theorem c10_remember_idempotent_recent_witness :
    remember_symbol ⟨[PyVal.vstr ("AAPL")], []⟩ (PyVal.vstr ("AAPL"))
        = ⟨[PyVal.vstr ("AAPL")], []⟩
    ∧ ([PyVal.vstr ("AAPL"), PyVal.vstr ("MSFT"),
          PyVal.vstr ("AAPL")].foldl remember_symbol
            SessionMemory.init).symbols_analyzed
        = firstOccDedup
            [PyVal.vstr ("AAPL"), PyVal.vstr ("MSFT"), PyVal.vstr ("AAPL")]
    ∧ (get_recent_symbols ⟨[PyVal.vstr ("AAPL"), PyVal.vstr ("MSFT")], []⟩ 1
          <:+ [PyVal.vstr ("AAPL"), PyVal.vstr ("MSFT")]
        ∧ (get_recent_symbols
              ⟨[PyVal.vstr ("AAPL"), PyVal.vstr ("MSFT")], []⟩ 1).length
            = min 1 [PyVal.vstr ("AAPL"), PyVal.vstr ("MSFT")].length) :=
  ⟨c10_remember_idempotent_recent.1 _ _ (by decide),
   c10_remember_idempotent_recent.2.1 _,
   c10_remember_idempotent_recent.2.2.2
     ⟨[PyVal.vstr ("AAPL"), PyVal.vstr ("MSFT")], []⟩ 1 (by decide)⟩

/-- C10 counterexample: the claim says `get_recent_symbols n` returns the
last `n` distinct symbols; at `n = 0` the code returns the entire list
(Python slice `[-0:]`), not the empty list. -/
theorem c10_get_recent_zero_counterexample :
    get_recent_symbols
        (remember_symbol SessionMemory.init (PyVal.vstr ("AAPL"))) 0
      = [PyVal.vstr ("AAPL")]
    ∧ [PyVal.vstr ("AAPL")] ≠ ([] : List PyVal) := by decide

/-! ## C8 — symbol extraction -/

theorem char_toUpper_idem (c : Char) : c.toUpper.toUpper = c.toUpper := by
  unfold Char.toUpper
  by_cases h : c.toNat ≥ 97 ∧ c.toNat ≤ 122
  · rw [if_pos h]
    have hv : (c.toNat - 32).isValidChar := by
      left
      omega
    have ht : (Char.ofNat (c.toNat - 32)).toNat = c.toNat - 32 := by
      rw [Char.ofNat, dif_pos hv]
      rfl
    rw [if_neg]
    rw [ht]
    omega
  · rw [if_neg h, if_neg h]

/-- C8 (amended): the extracted symbol list is a single ordered filter of
the word-character runs of the *uppercased* query — every alphabetic token
of 1–5 letters (of either case in the original text) that is not a
stop-list word, in occurrence order, with duplicates retained (the code
performs no deduplication).  Extraction is insensitive to the case of the
input. -/
theorem c8_extract_symbols_characterisation :
    (∀ q : List Char,
        extract_symbols q
          = (wordRuns (q.map Char.toUpper)).filter
              (fun r => !(common_words.contains r)
                  && (r.all isUpperAlpha && decide (1 ≤ r.length)
                        && decide (r.length ≤ 5))))
    ∧ (∀ (q : List Char) (t : List Char), t ∈ extract_symbols q →
        t.all isUpperAlpha = true ∧ 1 ≤ t.length ∧ t.length ≤ 5
          ∧ t ∉ common_words ∧ t ∈ wordRuns (q.map Char.toUpper))
    ∧ (∀ q : List Char,
        extract_symbols (q.map Char.toUpper) = extract_symbols q) := by
  refine ⟨?_, ?_, ?_⟩
  · intro q
    rw [extract_symbols, py_findall_symbols, List.filter_filter]
  · intro q t ht
    rw [extract_symbols] at ht
    have h2 := List.mem_filter.mp ht
    have h1 := List.mem_filter.mp h2.1
    refine ⟨?_, ?_, ?_, ?_, h1.1⟩
    · have := h1.2
      simp only [Bool.and_eq_true, decide_eq_true_eq] at this
      exact this.1.1
    · have := h1.2
      simp only [Bool.and_eq_true, decide_eq_true_eq] at this
      exact this.1.2
    · have := h1.2
      simp only [Bool.and_eq_true, decide_eq_true_eq] at this
      exact this.2
    · have := h2.2
      simpa using this
  · intro q
    rw [extract_symbols, extract_symbols, List.map_map]
    have : q.map (Char.toUpper ∘ Char.toUpper) = q.map Char.toUpper := by
      apply List.map_congr_left
      intro c _
      exact char_toUpper_idem c
    rw [this]

/-- C8 witness: the characterisation applied to the query `"buy aapl"`: the
run `AAPL` of the uppercased text is extracted, is 4 uppercase letters, is
not a stop word, and extraction of the already-uppercase text agrees. -/
theorem c8_extract_symbols_characterisation_witness :
    (("AAPL".toList).all isUpperAlpha = true
        ∧ 1 ≤ ("AAPL".toList).length ∧ ("AAPL".toList).length ≤ 5
        ∧ "AAPL".toList ∉ common_words
        ∧ "AAPL".toList ∈ wordRuns (("buy aapl".toList).map Char.toUpper))
    ∧ extract_symbols (("buy aapl".toList).map Char.toUpper)
        = extract_symbols ("buy aapl".toList) :=
  ⟨c8_extract_symbols_characterisation.2.1 ("buy aapl".toList) ("AAPL".toList)
      (by decide),
   c8_extract_symbols_characterisation.2.2 ("buy aapl".toList)⟩

/-- C8 counterexample: on the query `"AAPL AAPL"` the code extracts
`["AAPL", "AAPL"]` — the claimed deduplication does not happen, so the
result is not the one-element list the claim requires. -/
theorem c8_no_dedup_counterexample :
    extract_symbols ("AAPL AAPL".toList)
      = [("AAPL".toList), ("AAPL".toList)]
    ∧ ¬ (extract_symbols ("AAPL AAPL".toList)).Nodup := by decide

/-! ## C4 — backtest worked example -/

/-- C4 counterexample: the claim's position-delta path `[0, 1, 0, -2]` is
not what the code produces — `signals.diff()` makes the first entry NaN
(undefined), not 0, and the first entries of the holdings, cash and total
paths are NaN as well. -/
theorem c4_worked_example_counterexample :
    (backtester_execute [100, 101, 99, 102] [0, 1, 1, -1] 10000 0).positions
      ≠ [some 0, some 1, some 0, some (-2)] := by
  norm_num [backtester_execute, seriesDiff, seriesDiffFrom]
  decide

/-- C4 (amended): on prices `[100, 101, 99, 102]`, target-position signal
`[0, 1, 1, -1]`, initial capital 10000 and commission 0, the backtester
produces position-deltas `[NaN, 1, 0, -2]`, holdings `[NaN, 101, 101,
-103]`, cash `[NaN, 9899, 9899, 10103]` and total `[NaN, 10000, 10000,
10000]`: the index-0 entries are NaN (from `diff()`), and from index 1 on
the figures equal the claimed ones, with total = cash + holdings. -/
theorem c4_worked_example :
    (backtester_execute [100, 101, 99, 102] [0, 1, 1, -1] 10000 0).positions
        = [none, some 1, some 0, some (-2)]
    ∧ (backtester_execute [100, 101, 99, 102] [0, 1, 1, -1] 10000 0).holdings
        = [none, some 101, some 101, some (-103)]
    ∧ (backtester_execute [100, 101, 99, 102] [0, 1, 1, -1] 10000 0).cash
        = [none, some 9899, some 9899, some 10103]
    ∧ (backtester_execute [100, 101, 99, 102] [0, 1, 1, -1] 10000 0).total
        = [none, some 10000, some 10000, some 10000] := by
  norm_num [backtester_execute, seriesDiff, seriesDiffFrom, seriesMul,
    seriesCumsum, seriesCumsumFrom, seriesAdd, seriesSub, seriesAbs,
    seriesScalarSub, seriesScalarMul, seriesPctChange, List.zipWith]

/-! ## C5 — portfolio value invariant -/

/-- C5 (amended): for every backtest run, the commission-adjusted total
column equals (cash + holdings) − cumulative commission — the commission is
deducted from the total column, while the cash column itself is never
commission-adjusted — and the period-return column is the percentage change
of the *pre-commission* total `cash + holdings`, not of the adjusted total.
The last conjunct states the invariant pointwise: wherever total, cash,
holdings and cumulative commission are all defined, total = cash +
holdings − cumulative-commission. -/
theorem c5_total_value_invariant (close signals : List ℚ)
    (cap rate : ℚ) :
    (backtester_execute close signals cap rate).total
        = seriesSub
            (seriesAdd (backtester_execute close signals cap rate).cash
              (backtester_execute close signals cap rate).holdings)
            (seriesCumsum (backtester_execute close signals cap rate).commission)
    ∧ (backtester_execute close signals cap rate).returns
        = seriesPctChange
            (seriesAdd (backtester_execute close signals cap rate).cash
              (backtester_execute close signals cap rate).holdings)
    ∧ (∀ (i : Nat) (t c h m : ℚ),
        (backtester_execute close signals cap rate).total.get? i
            = some (some t) →
        (backtester_execute close signals cap rate).cash.get? i
            = some (some c) →
        (backtester_execute close signals cap rate).holdings.get? i
            = some (some h) →
        (seriesCumsum
            (backtester_execute close signals cap rate).commission).get? i
            = some (some m) →
        t = c + h - m) := by
  refine ⟨rfl, rfl, ?_⟩
  intro i t c h m ht hc hh hm
  rw [show (backtester_execute close signals cap rate).total
        = seriesSub
            (seriesAdd (backtester_execute close signals cap rate).cash
              (backtester_execute close signals cap rate).holdings)
            (seriesCumsum
              (backtester_execute close signals cap rate).commission)
      from rfl, seriesSub] at ht
  obtain ⟨x, y, hx, hy, hxy⟩ := (List.get?_zipWith_eq_some _ _ _ _ _).mp ht
  rw [seriesAdd] at hx
  obtain ⟨a, b, ha, hb, hab⟩ := (List.get?_zipWith_eq_some _ _ _ _ _).mp hx
  rw [ha] at hc
  rw [hb] at hh
  rw [hy] at hm
  injection hc with hc
  injection hh with hh
  injection hm with hm
  subst hc
  subst hh
  subst hm
  simp only [Option.some_bind, Option.map_some] at hab
  subst hab
  simp at hxy
  linarith [hxy]

/-- C5 witness: the pointwise invariant instantiated at period 2 of the run
with prices `[100, 101, 102]`, signals `[0, 1, 2]`, capital 10000 and
commission rate 0.001: total 9999.797 = cash 9797 + holdings 203 −
cumulative commission 0.203. -/
theorem c5_total_value_invariant_witness :
    (9999797/1000 : ℚ) = 9797 + 203 - 203/1000 :=
  (c5_total_value_invariant [100, 101, 102] [0, 1, 2] 10000 (1/1000)).2.2
    2 (9999797/1000) 9797 203 (203/1000)
    (by norm_num [backtester_execute, seriesDiff, seriesDiffFrom, seriesMul,
      seriesCumsum, seriesCumsumFrom, seriesAdd, seriesSub, seriesAbs,
      seriesScalarSub, seriesScalarMul, seriesPctChange, List.zipWith])
    (by norm_num [backtester_execute, seriesDiff, seriesDiffFrom, seriesMul,
      seriesCumsum, seriesCumsumFrom, seriesAdd, seriesSub, seriesAbs,
      seriesScalarSub, seriesScalarMul, seriesPctChange, List.zipWith])
    (by norm_num [backtester_execute, seriesDiff, seriesDiffFrom, seriesMul,
      seriesCumsum, seriesCumsumFrom, seriesAdd, seriesSub, seriesAbs,
      seriesScalarSub, seriesScalarMul, seriesPctChange, List.zipWith])
    (by norm_num [backtester_execute, seriesDiff, seriesDiffFrom, seriesMul,
      seriesCumsum, seriesCumsumFrom, seriesAdd, seriesSub, seriesAbs,
      seriesScalarSub, seriesScalarMul, seriesPctChange, List.zipWith])

/-- C5 counterexample: with a non-zero commission rate the claim's reading
fails — at period 2 of prices `[100, 101, 102]`, signals `[0, 1, 2]`,
rate 0.001, the total column is 9999.797 while cash + holdings = 10000
(commission is *not* deducted from cash), and the period-return is 0, the
percentage change of the pre-commission total, not of the adjusted total
(whose percentage change at period 2 is non-zero). -/
theorem c5_claim_counterexample :
    (backtester_execute [100, 101, 102] [0, 1, 2] 10000 (1/1000)).total.get? 2
        = some (some (9999797/1000))
    ∧ (backtester_execute [100, 101, 102] [0, 1, 2] 10000 (1/1000)).cash.get? 2
        = some (some 9797)
    ∧ (backtester_execute [100, 101, 102] [0, 1, 2] 10000
          (1/1000)).holdings.get? 2
        = some (some 203)
    ∧ (9999797/1000 : ℚ) ≠ 9797 + 203
    ∧ (backtester_execute [100, 101, 102] [0, 1, 2] 10000
          (1/1000)).returns.get? 2
        = some (some 0)
    ∧ (seriesPctChange
          (backtester_execute [100, 101, 102] [0, 1, 2] 10000
            (1/1000)).total).get? 2
        ≠ some (some 0) := by
  norm_num [backtester_execute, seriesDiff, seriesDiffFrom, seriesMul,
    seriesCumsum, seriesCumsumFrom, seriesAdd, seriesSub, seriesAbs,
    seriesScalarSub, seriesScalarMul, seriesPctChange, List.zipWith,
    List.range, List.range.loop]

/-! ## C9 — comparison summary best/worst for max-drawdown -/

/-- C9: on two strategies with max-drawdowns −5 and −15 the summary
produced by the code reports −15 (the largest magnitude, i.e. the *worst*
drawdown) as `best` and −5 as `worst` — the opposite of the claimed
magnitude convention — while the other metrics are compared by signed
value as claimed. -/
theorem c9_summary_drawdown_swapped :
    create_comparison_summary
        [⟨10, 1, -5, 3⟩, ⟨20, 1/2, -15, 4⟩]
      = some { total_return := ⟨20, 10, 15⟩
               sharpe := ⟨1, 1/2, 3/4⟩
               max_drawdown := ⟨-15, -5, -10⟩
               volatility := ⟨4, 3, 7/2⟩ }
    ∧ |(-15 : ℚ)| > |(-5 : ℚ)| := by
  constructor
  · norm_num [create_comparison_summary, summarize_metric, pyMaxBy, pyMinBy]
  · norm_num

/-! ## C6 — RSI range and the zero-average-loss boundary -/

theorem rsi_gain_term_nonneg (close : List ℚ) (i : Nat) :
    0 ≤ rsi_gain_term close i := by
  rw [rsi_gain_term]
  rcases close_delta close i with _ | d
  · simp
  · simp only
    split <;> [linarith; exact le_refl 0]

theorem rsi_loss_term_nonneg (close : List ℚ) (i : Nat) :
    0 ≤ rsi_loss_term close i := by
  rw [rsi_loss_term]
  rcases close_delta close i with _ | d
  · simp
  · simp only
    split <;> [linarith; exact le_refl 0]

theorem rolling_mean_nonneg (f : Nat → ℚ) (hf : ∀ j, 0 ≤ f j)
    (n len i : Nat) (g : ℚ) (h : rolling_mean f n len i = some g) : 0 ≤ g := by
  rw [rolling_mean] at h
  split at h
  · injection h with h
    subst h
    apply div_nonneg _ (Nat.cast_nonneg n)
    apply List.sum_nonneg
    intro x hx
    obtain ⟨k, _, hk⟩ := List.mem_map.mp hx
    exact hk ▸ hf _
  · exact absurd h (Option.noConfusion)

/-- C6 (amended): every RSI value that is a finite number lies in [0, 100];
where the trailing average loss is 0 the RSI is exactly 100 whenever the
trailing average gain is positive, and is NaN (undefined), not 100, when
the average gain is 0 as well (both averages 0 make `rs = 0/0` a NaN). -/
theorem c6_rsi_range_and_zero_loss (close : List ℚ) (n i : Nat) :
    (∀ q : ℚ, calculate_rsi_at close n i = PFloat.val q → 0 ≤ q ∧ q ≤ 100)
    ∧ (average_loss close n i = some 0 →
        ∀ g : ℚ, average_gain close n i = some g →
          (0 < g → calculate_rsi_at close n i = PFloat.val 100)
          ∧ (g = 0 → calculate_rsi_at close n i = PFloat.nan)) := by
  rcases hg : average_gain close n i with _ | g
  · constructor
    · intro q hq
      rw [calculate_rsi_at, hg] at hq
      exact absurd hq (by simp)
    · intro _ g hg'
      exact Option.noConfusion hg'
  · rcases hl : average_loss close n i with _ | l
    · constructor
      · intro q hq
        rw [calculate_rsi_at, hg, hl] at hq
        exact absurd hq (by simp)
      · intro hl0
        exact Option.noConfusion hl0
    · have hg0 : 0 ≤ g :=
        rolling_mean_nonneg _ (rsi_gain_term_nonneg close) n close.length i g hg
      have hl0 : 0 ≤ l :=
        rolling_mean_nonneg _ (rsi_loss_term_nonneg close) n close.length i l hl
      have hval : calculate_rsi_at close n i
          = PFloat.pSub (.val 100)
              (PFloat.pDiv (.val 100)
                (PFloat.pAdd (.val 1) (PFloat.pDiv (.val g) (.val l)))) := by
        rw [calculate_rsi_at, hg, hl]
      rcases eq_or_lt_of_le hl0 with hlz | hlpos
      · -- average loss is zero
        rcases eq_or_lt_of_le hg0 with hgz | hgpos
        · -- average gain is zero as well: rs = 0/0 = NaN
          have : calculate_rsi_at close n i = PFloat.nan := by
            rw [hval, ← hlz, ← hgz]
            norm_num [PFloat.pDiv, PFloat.pAdd, PFloat.pSub, PFloat.pNeg]
          constructor
          · intro q hq
            rw [this] at hq
            exact absurd hq (by simp)
          · intro _ g' hg'
            injection hg' with hg'
            subst hg'
            exact ⟨fun hc => absurd hc (by rw [← hgz]; simp),
                   fun _ => this⟩
        · -- positive gain over zero loss: rs = +inf, RSI = 100
          have : calculate_rsi_at close n i = PFloat.val 100 := by
            rw [hval, ← hlz]
            norm_num [PFloat.pDiv, PFloat.pAdd, PFloat.pSub, PFloat.pNeg, hgpos]
          constructor
          · intro q hq
            rw [this] at hq
            injection hq with hq
            subst hq
            norm_num
          · intro _ g' hg'
            injection hg' with hg'
            subst hg'
            exact ⟨fun _ => this, fun hc => absurd hc (by linarith)⟩
      · -- positive average loss: RSI is finite and in [0, 100)
        have hrs : PFloat.pDiv (.val g) (.val l) = PFloat.val (g / l) := by
          rw [PFloat.pDiv]
          rw [if_neg (by linarith)]
        have hden : (0 : ℚ) < 1 + g / l := by
          have : 0 ≤ g / l := div_nonneg hg0 (le_of_lt hlpos)
          linarith
        have : calculate_rsi_at close n i
            = PFloat.val (100 - 100 / (1 + g / l)) := by
          rw [hval, hrs]
          rw [show PFloat.pAdd (.val 1) (.val (g / l)) = .val (1 + g / l) from rfl]
          rw [show PFloat.pDiv (.val 100) (.val (1 + g / l))
                = .val (100 / (1 + g / l)) by
              rw [PFloat.pDiv, if_neg (by linarith)]]
          simp [PFloat.pSub, PFloat.pNeg, PFloat.pAdd, sub_eq_add_neg]
        constructor
        · intro q hq
          rw [this] at hq
          injection hq with hq
          subst hq
          have h1 : 100 / (1 + g / l) ≤ 100 / 1 := by
            apply div_le_div_of_nonneg_left (by norm_num) (by norm_num) ?_
            have : 0 ≤ g / l := div_nonneg hg0 (le_of_lt hlpos)
            linarith
          have h2 : 0 < 100 / (1 + g / l) := by positivity
          constructor <;> [linarith [h1]; linarith [h2]]
        · intro hlz
          injection hlz with hlz
          exact absurd hlz (by linarith)

/-- C6 witness: on closes `[1, 2, 2, 2]` with period 2 at index 1 the
average loss is 0 with positive average gain and the RSI is exactly 100;
on closes `[1, 2, 1]` with period 2 at index 2 the RSI is the finite value
50, which the range clause places in [0, 100]. -/
theorem c6_rsi_range_and_zero_loss_witness :
    calculate_rsi_at [1, 2, 2, 2] 2 1 = PFloat.val 100
    ∧ ((0 : ℚ) ≤ 50 ∧ (50 : ℚ) ≤ 100) :=
  ⟨((c6_rsi_range_and_zero_loss [1, 2, 2, 2] 2 1).2
      (by norm_num [average_loss, rolling_mean, rsi_loss_term, close_delta,
        List.range, List.range.loop])
      (1/2)
      (by norm_num [average_gain, rolling_mean, rsi_gain_term, close_delta,
        List.range, List.range.loop])).1
    (by norm_num),
   (c6_rsi_range_and_zero_loss [1, 2, 1] 2 2).1 50
    (by norm_num [calculate_rsi_at, average_gain, average_loss, rolling_mean,
      rsi_gain_term, rsi_loss_term, close_delta, List.range, List.range.loop,
      PFloat.pDiv, PFloat.pAdd, PFloat.pSub, PFloat.pNeg])⟩

/-- C6 counterexample: on the non-degenerate closes `[1, 2, 2, 2]` with
period 2, at index 3 the trailing average loss is 0 but the RSI is NaN
(`rs = 0/0`), not 100 as the claim requires. -/
theorem c6_zero_loss_counterexample :
    average_loss [1, 2, 2, 2] 2 3 = some 0
    ∧ calculate_rsi_at [1, 2, 2, 2] 2 3 ≠ PFloat.val 100 := by
  norm_num [average_loss, average_gain, calculate_rsi_at, rolling_mean,
    rsi_loss_term, rsi_gain_term, close_delta, List.range, List.range.loop,
    PFloat.pAdd, PFloat.pSub, PFloat.pNeg, PFloat.pDiv]
  decide

/-! ## C2 — cyclic or dangling dependencies -/

/-- C2: the claim (and the spec's requirement) is that a task list with a
cyclic dependency or a dependency on a non-existent id is rejected with a
diagnostic before execution; the code instead never terminates.  For a
dangling dependency and for a two-task cycle, every number of scan passes
leaves `_sort_tasks_by_dependencies` unfinished (each pass is a no-op), so
`execute_plan` never returns and never executes a task — there is no
rejection path at all. -/
theorem c2_cycle_or_dangling_nontermination :
    (∀ fuel : Nat,
        sort_tasks_aux [⟨("t1"), ("tool"), PyFields.nil, [("missing")]⟩]
          fuel [] = none)
    ∧ (∀ fuel : Nat,
        sort_tasks_aux
          [⟨("a"), ("tool"), PyFields.nil, [("b")]⟩,
           ⟨("b"), ("tool"), PyFields.nil, [("a")]⟩] fuel [] = none)
    ∧ (∀ (reg : Registry) (session : SessionMemory),
        execute_plan reg session
          [⟨("t1"), ("tool"), PyFields.nil, [("missing")]⟩] = none)
    ∧ (∀ (reg : Registry) (session : SessionMemory),
        execute_plan reg session
          [⟨("a"), ("tool"), PyFields.nil, [("b")]⟩,
           ⟨("b"), ("tool"), PyFields.nil, [("a")]⟩] = none) := by
  have h1 : ∀ fuel : Nat,
      sort_tasks_aux [⟨("t1"), ("tool"), PyFields.nil, [("missing")]⟩]
        fuel [] = none := by
    intro fuel
    induction fuel with
    | zero => rfl
    | succ n ih =>
        rw [sort_tasks_aux]
        simpa [scan_pick, can_pick] using ih
  have h2 : ∀ fuel : Nat,
      sort_tasks_aux
        [⟨("a"), ("tool"), PyFields.nil, [("b")]⟩,
         ⟨("b"), ("tool"), PyFields.nil, [("a")]⟩] fuel [] = none := by
    intro fuel
    induction fuel with
    | zero => rfl
    | succ n ih =>
        rw [sort_tasks_aux]
        simpa [scan_pick, can_pick] using ih
  refine ⟨h1, h2, ?_, ?_⟩
  · intro reg session
    rw [execute_plan, sort_tasks_by_dependencies, h1]
    rfl
  · intro reg session
    rw [execute_plan, sort_tasks_by_dependencies, h2]
    rfl

/-! ## C3 — fault isolation at the task boundary -/

theorem resultmap_get_set_self (rm : ResultMap) (k : String) (v : ToolResult) :
    (rm.set k v).get k = some v := by
  induction rm with
  | nil => simp [ResultMap.set, ResultMap.get]
  | cons p rest ih =>
      rw [ResultMap.set]
      by_cases h : p.1 = k
      · simp [ResultMap.get, h]
      · simp only [h, if_false]
        rw [ResultMap.get]
        simp [h, ih]

theorem resultmap_get_set_isSome (rm : ResultMap) (k k' : String)
    (v : ToolResult) (h : (rm.get k).isSome) :
    ((rm.set k' v).get k).isSome := by
  induction rm with
  | nil => simp [ResultMap.get] at h
  | cons p rest ih =>
      rw [ResultMap.set]
      by_cases hp : p.1 = k'
      · simp only [hp, if_true]
        rw [ResultMap.get] at h ⊢
        by_cases hk : k' = k
        · simp [hk]
        · simpa [hp, hk] using h
      · simp only [hp, if_false]
        rw [ResultMap.get] at h ⊢
        by_cases hk : p.1 = k
        · simp [hk]
        · simp only [hk, if_false] at h ⊢
          exact ih h

theorem run_tasks_get_mono (reg : Registry) :
    ∀ (ts : List PTask) (rm : ResultMap) (session : SessionMemory)
      (k : String), (rm.get k).isSome →
      (((run_tasks reg ts rm session).1).get k).isSome := by
  intro ts
  induction ts with
  | nil => intro rm session k h; exact h
  | cons t rest ih =>
      intro rm session k h
      rw [run_tasks]
      exact ih _ _ k (resultmap_get_set_isSome _ _ _ _ h)

/-- C3: faults are confined to the task boundary.  If the task's tool name
is not in the registry, the outcome is the failure
"Tool ... not found in registry" and the session memory is unchanged; if
the tool raises, the raised message is caught and returned as the failure
outcome "Task execution failed: ..." with the session unchanged; and the
execution loop never aborts — after running any task list, every task of
the list has an outcome recorded in the result map, whether or not earlier
tasks failed. -/
theorem c3_fault_isolation (reg : Registry) (results : ResultMap)
    (session : SessionMemory) (t : PTask) :
    (reg.get_tool t.tool_name = none →
        execute_task reg results session t
          = ({ success := false, data := PyVal.vnone,
               error := some ("Tool " ++ t.tool_name
                  ++ " not found in registry") }, session))
    ∧ (∀ (tool : Tool) (msg : String),
        reg.get_tool t.tool_name = some tool →
        tool (prepare_params t.parameters t.dependencies results)
            = Except.error msg →
        execute_task reg results session t
          = ({ success := false, data := PyVal.vnone,
               error := some ("Task execution failed: " ++ msg) }, session))
    ∧ (∀ (ts : List PTask) (rm : ResultMap) (s : SessionMemory),
        ∀ u ∈ ts, (((run_tasks reg ts rm s).1).get u.task_id).isSome) := by
  refine ⟨?_, ?_, ?_⟩
  · intro h
    rw [execute_task, h]
  · intro tool msg hres htool
    rw [execute_task, hres]
    dsimp only
    rw [htool]
  · intro ts
    induction ts with
    | nil => intro rm s u hu; exact absurd hu (List.not_mem_nil u)
    | cons t0 rest ih =>
        intro rm s u hu
        rw [run_tasks]
        rcases List.mem_cons.mp hu with h | h
        · subst h
          apply run_tasks_get_mono
          rw [resultmap_get_set_self]
          rfl
        · exact ih _ _ u h

/-- C3 witness: with an empty registry the outcome of a task is the
tool-not-found failure with the session untouched, and with a registry
whose only tool raises `"boom"` the outcome is the caught-exception
failure, again with the session untouched; both tasks still receive an
outcome in the result map of a run over both. -/
theorem c3_fault_isolation_witness :
    (execute_task [] [] SessionMemory.init
        ⟨("t1"), ("ghost"), PyFields.nil, []⟩
      = ({ success := false, data := PyVal.vnone,
           error := some ("Tool " ++ ("ghost") ++ " not found in registry") },
         SessionMemory.init))
    ∧ (execute_task [(("thrower"), fun _ => Except.error ("boom"))] []
          SessionMemory.init ⟨("t2"), ("thrower"), PyFields.nil, []⟩
        = ({ success := false, data := PyVal.vnone,
             error := some ("Task execution failed: " ++ ("boom")) },
           SessionMemory.init))
    ∧ (((run_tasks [(("thrower"), fun _ => Except.error ("boom"))]
          [⟨("t1"), ("ghost"), PyFields.nil, []⟩,
           ⟨("t2"), ("thrower"), PyFields.nil, []⟩] []
          SessionMemory.init).1).get ("t1")).isSome :=
  ⟨(c3_fault_isolation [] [] SessionMemory.init
      ⟨("t1"), ("ghost"), PyFields.nil, []⟩).1 rfl,
   (c3_fault_isolation [(("thrower"), fun _ => Except.error ("boom"))] []
      SessionMemory.init ⟨("t2"), ("thrower"), PyFields.nil, []⟩).2.1
     (fun _ => Except.error ("boom")) ("boom") rfl rfl,
   (c3_fault_isolation [(("thrower"), fun _ => Except.error ("boom"))] []
      SessionMemory.init ⟨("t2"), ("thrower"), PyFields.nil, []⟩).2.2
     [⟨("t1"), ("ghost"), PyFields.nil, []⟩,
      ⟨("t2"), ("thrower"), PyFields.nil, []⟩] [] SessionMemory.init
     ⟨("t1"), ("ghost"), PyFields.nil, []⟩ (by simp)⟩

/-! ## C7 — dependency-output propagation -/

theorem pyfields_get_set_self :
    ∀ (d : PyFields) (k : String) (v : PyVal), (d.set k v).get k = some v
  | .nil, k, v => by simp [PyFields.set, PyFields.get]
  | .cons k' v' rest, k, v => by
      rw [PyFields.set]
      by_cases h : k' = k
      · simp [PyFields.get, h]
      · simp only [h, if_false]
        rw [PyFields.get]
        simp only [h, if_false]
        exact pyfields_get_set_self rest k v

theorem pyfields_get_set_ne :
    ∀ (d : PyFields) (k k' : String) (v : PyVal), k' ≠ k →
      (d.set k v).get k' = d.get k'
  | .nil, k, k', v => by
      intro h
      simp [PyFields.set, PyFields.get, Ne.symm h]
  | .cons k0 v0 rest, k, k', v => by
      intro h
      rw [PyFields.set]
      by_cases h0 : k0 = k
      · rw [if_pos h0, PyFields.get, PyFields.get]
        have : ¬ k0 = k' := fun hc => h (by rw [← hc, h0])
        simp [this]
      · rw [if_neg h0, PyFields.get, PyFields.get]
        by_cases h1 : k0 = k'
        · simp [h1]
        · simp only [h1, if_false]
          exact pyfields_get_set_ne rest k k' v h

theorem prepare_params_bag (rs : ResultMap) :
    ∀ (ds : List String) (ps : PyFields) (dep : String) (r : ToolResult),
      rs.get dep = some r → r.success = true →
      (dep ∈ ds
        ∨ (∃ d0, ps.get ("dependency_data") = some (PyVal.vdict d0)
            ∧ d0.get dep = some r.data)) →
      ∃ d1, (prepare_params ps ds rs).get ("dependency_data")
          = some (PyVal.vdict d1) ∧ d1.get dep = some r.data := by
  intro ds
  induction ds with
  | nil =>
      intro ps dep r _ _ hcase
      rcases hcase with hmem | ⟨d0, hd0, hdep⟩
      · exact absurd hmem (List.not_mem_nil dep)
      · exact ⟨d0, hd0, hdep⟩
  | cons d0 ds ih =>
      intro ps dep r hr hsucc hcase
      rw [prepare_params, List.foldl_cons]
      rw [show List.foldl _ _ ds = prepare_params _ ds rs from rfl]
      rcases hcase with hmem | ⟨b0, hb0, hbdep⟩
      · rcases List.mem_cons.mp hmem with hd | hd
        · subst hd
          refine ih _ _ _ hr hsucc (Or.inr ?_)
          rw [hr]
          simp only [hsucc, if_true]
          exact ⟨_, pyfields_get_set_self _ _ _,
                 pyfields_get_set_self _ dep r.data⟩
        · exact ih _ _ _ hr hsucc (Or.inl hd)
      · refine ih _ _ _ hr hsucc (Or.inr ?_)
        rcases hres : rs.get d0 with _ | r0
        · exact ⟨b0, hb0, hbdep⟩
        · by_cases hs0 : r0.success = true
          · simp only [hs0, if_true]
            rw [hb0]
            by_cases hdd : d0 = dep
            · subst hdd
              have hr0 : r0 = r := by
                rw [hres] at hr
                injection hr
              subst hr0
              exact ⟨_, pyfields_get_set_self _ _ _,
                     pyfields_get_set_self _ _ _⟩
            · refine ⟨_, pyfields_get_set_self _ _ _, ?_⟩
              rw [pyfields_get_set_ne _ _ _ _ (fun hc => hdd hc.symm)]
              exact hbdep
          · simp only [hs0, if_false]
            exact ⟨b0, hb0, hbdep⟩

theorem prepare_params_other_key (rs : ResultMap) :
    ∀ (ds : List String) (ps : PyFields) (k : String),
      k ≠ ("dependency_data") →
      (prepare_params ps ds rs).get k = ps.get k := by
  intro ds
  induction ds with
  | nil => intro ps k _; rfl
  | cons d0 ds ih =>
      intro ps k hk
      rw [prepare_params, List.foldl_cons]
      rw [show List.foldl _ _ ds = prepare_params _ ds rs from rfl]
      rw [ih _ k hk]
      rcases hres : rs.get d0 with _ | r0
      · rfl
      · by_cases hs0 : r0.success = true
        · simp only [hs0, if_true]
          exact pyfields_get_set_ne _ _ _ _ hk
        · simp [hs0]

/-- C7 (amended): whatever its shape, the output of every successfully
executed dependency is passed to the downstream task only inside the
per-dependency bag `params['dependency_data'][dep_id]`; no shape-based
forwarding happens — the merge prologue never writes the stage-specific
keys `data` or `technical_data` (or any key other than
`dependency_data`). -/
theorem c7_dependency_data_bag :
    (∀ (params : PyFields) (deps : List String) (rs : ResultMap)
        (dep : String) (r : ToolResult),
        dep ∈ deps → rs.get dep = some r → r.success = true →
        ∃ d, (prepare_params params deps rs).get ("dependency_data")
            = some (PyVal.vdict d) ∧ d.get dep = some r.data)
    ∧ (∀ (params : PyFields) (deps : List String) (rs : ResultMap)
        (k : String), k ≠ ("dependency_data") →
        (prepare_params params deps rs).get k = params.get k) := by
  constructor
  · intro params deps rs dep r hmem hr hsucc
    exact prepare_params_bag rs deps params dep r hr hsucc (Or.inl hmem)
  · intro params deps rs k hk
    exact prepare_params_other_key rs deps params k hk

/-- C7 counterexample: a task depending on an executed fetch task whose
successful output carries a `historical_data` field does *not* receive that
series under the downstream input name `data` (nor under
`technical_data`); the output appears only in the per-dependency bag
`dependency_data[data_AAPL]`.  The claimed shape-based forwarding does not
exist in `TaskExecutor._execute_task`. -/
theorem c7_no_shape_forwarding_counterexample :
    (prepare_params (PyFields.cons ("symbol") (PyVal.vstr ("AAPL")) PyFields.nil)
        [("data_AAPL")]
        [(("data_AAPL"),
          { success := true
            data := PyVal.vdict (PyFields.cons ("historical_data")
              (PyVal.vstr ("series")) PyFields.nil)
            error := none })]).get ("data") = none
    ∧ (prepare_params (PyFields.cons ("symbol") (PyVal.vstr ("AAPL")) PyFields.nil)
        [("data_AAPL")]
        [(("data_AAPL"),
          { success := true
            data := PyVal.vdict (PyFields.cons ("historical_data")
              (PyVal.vstr ("series")) PyFields.nil)
            error := none })]).get ("technical_data") = none
    ∧ (prepare_params (PyFields.cons ("symbol") (PyVal.vstr ("AAPL")) PyFields.nil)
        [("data_AAPL")]
        [(("data_AAPL"),
          { success := true
            data := PyVal.vdict (PyFields.cons ("historical_data")
              (PyVal.vstr ("series")) PyFields.nil)
            error := none })]).get ("dependency_data")
        = some (PyVal.vdict (PyFields.cons ("data_AAPL")
            (PyVal.vdict (PyFields.cons ("historical_data")
              (PyVal.vstr ("series")) PyFields.nil)) PyFields.nil)) := by
  decide

/-- C7 witness: the bag clause applied at the concrete fetch-dependency
result above, and the other-keys clause applied at the key `data`. -/
theorem c7_dependency_data_bag_witness :
    (∃ d, (prepare_params
          (PyFields.cons ("symbol") (PyVal.vstr ("AAPL")) PyFields.nil)
          [("data_AAPL")]
          [(("data_AAPL"),
            { success := true
              data := PyVal.vdict (PyFields.cons ("historical_data")
                (PyVal.vstr ("series")) PyFields.nil)
              error := none })]).get ("dependency_data")
        = some (PyVal.vdict d)
        ∧ d.get ("data_AAPL")
            = some (PyVal.vdict (PyFields.cons ("historical_data")
                (PyVal.vstr ("series")) PyFields.nil)))
    ∧ (prepare_params
          (PyFields.cons ("symbol") (PyVal.vstr ("AAPL")) PyFields.nil)
          [("data_AAPL")]
          [(("data_AAPL"),
            { success := true
              data := PyVal.vdict (PyFields.cons ("historical_data")
                (PyVal.vstr ("series")) PyFields.nil)
              error := none })]).get ("data")
        = (PyFields.cons ("symbol") (PyVal.vstr ("AAPL")) PyFields.nil).get
            ("data") :=
  ⟨c7_dependency_data_bag.1
      (PyFields.cons ("symbol") (PyVal.vstr ("AAPL")) PyFields.nil)
      [("data_AAPL")]
      [(("data_AAPL"),
        { success := true
          data := PyVal.vdict (PyFields.cons ("historical_data")
            (PyVal.vstr ("series")) PyFields.nil)
          error := none })]
      ("data_AAPL")
      { success := true
        data := PyVal.vdict (PyFields.cons ("historical_data")
          (PyVal.vstr ("series")) PyFields.nil)
        error := none }
      (by decide) (by decide) (by decide),
   c7_dependency_data_bag.2
      (PyFields.cons ("symbol") (PyVal.vstr ("AAPL")) PyFields.nil)
      [("data_AAPL")]
      [(("data_AAPL"),
        { success := true
          data := PyVal.vdict (PyFields.cons ("historical_data")
            (PyVal.vstr ("series")) PyFields.nil)
          error := none })]
      ("data") (by decide)⟩

/-! ## C1 — dependency-ordered execution of acyclic graphs

Acyclicity of the dependency graph is witnessed in the standard way by a
rank function that strictly decreases along dependency edges. -/

theorem append_singleton_decomp {α : Type} (acc pre post : List α) (x t : α)
    (h : acc ++ [x] = pre ++ t :: post) :
    (pre = acc ∧ t = x ∧ post = [])
    ∨ (∃ post', post = post' ++ [x] ∧ acc = pre ++ t :: post') := by
  rcases List.eq_nil_or_concat post with hp | ⟨post', y, hp⟩
  · subst hp
    obtain ⟨h1, h2⟩ := List.append_inj' h rfl
    injection h2 with h2
    exact Or.inl ⟨h1.symm, h2.symm, rfl⟩
  · subst hp
    rw [List.concat_eq_append] at h
    have h2 : acc ++ [x] = (pre ++ t :: post') ++ [y] := by
      rw [h]
      simp
    obtain ⟨h3, h4⟩ := List.append_inj' h2 rfl
    injection h4 with h4
    subst h4
    exact Or.inr ⟨post', List.concat_eq_append _ _, h3⟩

theorem scan_pick_progress (tasks : List PTask) (rank : String → Nat)
    (hnodup : (tasks.map PTask.task_id).Nodup)
    (hclosed : ∀ t ∈ tasks, ∀ d ∈ t.dependencies, d ∈ tasks.map PTask.task_id)
    (hrank : ∀ t ∈ tasks, ∀ d ∈ t.dependencies, rank d < rank t.task_id)
    (completed : List String)
    (hlen : completed.length < tasks.length) :
    ∃ t, scan_pick tasks completed = some t := by
  have hpending : ∃ t, t ∈ tasks ∧ t.task_id ∉ completed := by
    by_contra hall
    push_neg at hall
    have hsubset : (tasks.map PTask.task_id) ⊆ completed := by
      intro x hx
      obtain ⟨t, ht, rfl⟩ := List.mem_map.mp hx
      exact hall t ht
    have hle := (List.subperm_of_subset hnodup hsubset).length_le
    rw [List.length_map] at hle
    omega
  obtain ⟨t0, ht0, ht0c⟩ := hpending
  have ht0P : t0 ∈ tasks.filter (fun t => !(completed.contains t.task_id)) := by
    rw [List.mem_filter]
    refine ⟨ht0, ?_⟩
    simp [List.contains, ht0c]
  obtain ⟨m, hm⟩ : ∃ m, (tasks.filter
      (fun t => !(completed.contains t.task_id))).argmin
        (fun t => rank t.task_id) = some m := by
    rcases h : (tasks.filter
        (fun t => !(completed.contains t.task_id))).argmin
          (fun t => rank t.task_id) with _ | m
    · rw [List.argmin_eq_none] at h
      rw [h] at ht0P
      exact absurd ht0P (List.not_mem_nil t0)
    · exact ⟨m, h⟩
  have hmP := List.argmin_mem (Option.mem_def.mpr hm)
  have hmin : ∀ x ∈ tasks.filter (fun t => !(completed.contains t.task_id)),
      rank m.task_id ≤ rank x.task_id :=
    fun x hx =>
      @List.le_of_mem_argmin PTask Nat _ (fun t => rank t.task_id) _ x m hx
        (Option.mem_def.mpr hm)
  have hmtasks : m ∈ tasks := (List.mem_filter.mp hmP).1
  have hmc : m.task_id ∉ completed := by
    have := (List.mem_filter.mp hmP).2
    simpa [List.contains] using this
  have hdeps : ∀ d ∈ m.dependencies, d ∈ completed := by
    intro d hd
    by_contra hdc
    obtain ⟨u, hu, hud⟩ := List.mem_map.mp (hclosed m hmtasks d hd)
    have huP : u ∈ tasks.filter (fun t => !(completed.contains t.task_id)) := by
      rw [List.mem_filter]
      refine ⟨hu, ?_⟩
      rw [hud]
      simp [List.contains, hdc]
    have h1 := hmin u huP
    have h2 := hrank m hmtasks d hd
    rw [hud] at h1
    omega
  have hcp : can_pick completed m = true := by
    rw [can_pick, Bool.and_eq_true]
    constructor
    · simp [List.contains, hmc]
    · rw [List.all_eq_true]
      intro d hd
      simp [List.contains, hdeps d hd]
  have hsome : (tasks.find? (can_pick completed)).isSome :=
    List.find?_isSome.mpr ⟨m, hmtasks, hcp⟩
  obtain ⟨t, ht⟩ := Option.isSome_iff_exists.mp hsome
  exact ⟨t, ht⟩

theorem sort_tasks_aux_total (tasks : List PTask) (rank : String → Nat)
    (hnodup : (tasks.map PTask.task_id).Nodup)
    (hclosed : ∀ t ∈ tasks, ∀ d ∈ t.dependencies, d ∈ tasks.map PTask.task_id)
    (hrank : ∀ t ∈ tasks, ∀ d ∈ t.dependencies, rank d < rank t.task_id) :
    ∀ (fuel : Nat) (acc : List PTask),
      (∀ t ∈ acc, t ∈ tasks) →
      ((acc.map PTask.task_id).Nodup) →
      (∀ pre t post, acc = pre ++ t :: post →
          scan_pick tasks (pre.map PTask.task_id) = some t) →
      tasks.length - acc.length < fuel →
      ∃ sorted, sort_tasks_aux tasks fuel acc = some sorted
        ∧ sorted.length = tasks.length
        ∧ (∀ t ∈ sorted, t ∈ tasks)
        ∧ ((sorted.map PTask.task_id).Nodup)
        ∧ (∀ pre t post, sorted = pre ++ t :: post →
            scan_pick tasks (pre.map PTask.task_id) = some t) := by
  intro fuel
  induction fuel with
  | zero =>
      intro acc _ _ _ hlt
      omega
  | succ f ih =>
      intro acc h1 h2 h3 hlt
      by_cases hlen : acc.length < tasks.length
      · have hcl : (acc.map PTask.task_id).length < tasks.length := by
          rw [List.length_map]
          exact hlen
        obtain ⟨t, hpick⟩ :=
          scan_pick_progress tasks rank hnodup hclosed hrank
            (acc.map PTask.task_id) hcl
        have htmem : t ∈ tasks := List.mem_of_find?_eq_some hpick
        have hcp := List.find?_some hpick
        rw [can_pick, Bool.and_eq_true] at hcp
        have htnotin : t.task_id ∉ acc.map PTask.task_id := by
          have := hcp.1
          simpa [List.contains] using this
        have h1' : ∀ u ∈ acc ++ [t], u ∈ tasks := by
          intro u hu
          rcases List.mem_append.mp hu with hu | hu
          · exact h1 u hu
          · rw [List.mem_singleton.mp hu]
            exact htmem
        have h2' : (((acc ++ [t]).map PTask.task_id)).Nodup := by
          rw [List.map_append]
          simp [List.nodup_append, h2, htnotin]
        have h3' : ∀ pre u post, acc ++ [t] = pre ++ u :: post →
            scan_pick tasks (pre.map PTask.task_id) = some u := by
          intro pre u post hdec
          rcases append_singleton_decomp acc pre post t u hdec with
            ⟨hpre, hut, _⟩ | ⟨post', _, hacc⟩
          · subst hpre
            subst hut
            exact hpick
          · exact h3 pre u post' hacc
        have hlt' : tasks.length - (acc ++ [t]).length < f := by
          rw [List.length_append, List.length_singleton]
          omega
        obtain ⟨sorted, hs, hrest⟩ := ih (acc ++ [t]) h1' h2' h3' hlt'
        refine ⟨sorted, ?_, hrest⟩
        rw [sort_tasks_aux, if_pos hlen, hpick]
        exact hs
      · have hsubset : (acc.map PTask.task_id) ⊆ (tasks.map PTask.task_id) := by
          intro x hx
          obtain ⟨u, hu, rfl⟩ := List.mem_map.mp hx
          exact List.mem_map_of_mem _ (h1 u hu)
        have hle := (List.subperm_of_subset h2 hsubset).length_le
        rw [List.length_map, List.length_map] at hle
        have heq : acc.length = tasks.length := by omega
        refine ⟨acc, ?_, heq, h1, h2, h3⟩
        rw [sort_tasks_aux, if_neg hlen]

theorem resultmap_set_new (rm : ResultMap) (k : String) (v : ToolResult)
    (h : rm.get k = none) : rm.set k v = rm ++ [(k, v)] := by
  induction rm with
  | nil => rfl
  | cons p rest ih =>
      rw [ResultMap.get] at h
      by_cases hp : p.1 = k
      · rw [if_pos hp] at h
        exact absurd h (Option.noConfusion)
      · rw [if_neg hp] at h
        rw [ResultMap.set, if_neg hp, ih h]
        rfl

theorem resultmap_get_none_of_set (rm : ResultMap) (k k' : String)
    (v : ToolResult) (h : rm.get k = none) (hk : k ≠ k') :
    (rm.set k' v).get k = none := by
  induction rm with
  | nil =>
      rw [ResultMap.set, ResultMap.get, if_neg (fun hc => hk hc.symm)]
      rfl
  | cons p rest ih =>
      rw [ResultMap.get] at h
      by_cases hp : p.1 = k
      · rw [if_pos hp] at h
        exact absurd h (Option.noConfusion)
      · rw [if_neg hp] at h
        rw [ResultMap.set]
        by_cases hp' : p.1 = k'
        · rw [if_pos hp', ResultMap.get, if_neg hp]
          exact h
        · rw [if_neg hp', ResultMap.get, if_neg hp]
          exact ih h

theorem run_tasks_keys (reg : Registry) :
    ∀ (ts : List PTask) (rm : ResultMap) (s : SessionMemory),
      (∀ t ∈ ts, rm.get t.task_id = none) →
      ((ts.map PTask.task_id).Nodup) →
      ((run_tasks reg ts rm s).1).map Prod.fst
        = rm.map Prod.fst ++ ts.map PTask.task_id := by
  intro ts
  induction ts with
  | nil => intro rm s _ _; simp [run_tasks]
  | cons t rest ih =>
      intro rm s hnone hnd
      rcases hE : execute_task reg rm s t with ⟨r, s'⟩
      rw [run_tasks, hE]
      have hset := resultmap_set_new rm t.task_id r (hnone t (List.mem_cons_self t rest))
      have hnone' : ∀ u ∈ rest, (rm.set t.task_id r).get u.task_id = none := by
        intro u hu
        have hne : u.task_id ≠ t.task_id := by
          rw [List.map_cons, List.nodup_cons] at hnd
          intro hc
          exact hnd.1 (hc ▸ List.mem_map_of_mem _ hu)
        exact resultmap_get_none_of_set rm u.task_id t.task_id r
          (hnone u (List.mem_cons_of_mem t hu)) hne
      have hnd' : ((rest.map PTask.task_id)).Nodup := by
        rw [List.map_cons, List.nodup_cons] at hnd
        exact hnd.2
      rw [ih (rm.set t.task_id r) s' hnone' hnd', hset]
      simp

/-- C1: for a task list whose ids are distinct, whose dependency ids all
name tasks in the list, and whose dependency graph is acyclic (witnessed by
a rank function decreasing along dependency edges), `execute_plan`
terminates: the dependency scan produces a permutation of the task list in
which every task appears strictly after all of its dependencies and each
position holds exactly the first eligible pending task of the original
order (the claimed tie-break), and the executor then returns one outcome
per task id, keyed in execution order. -/
theorem c1_execute_plan_correct (tasks : List PTask) (rank : String → Nat)
    (reg : Registry) (session : SessionMemory)
    (hnodup : (tasks.map PTask.task_id).Nodup)
    (hclosed : ∀ t ∈ tasks, ∀ d ∈ t.dependencies, d ∈ tasks.map PTask.task_id)
    (hrank : ∀ t ∈ tasks, ∀ d ∈ t.dependencies, rank d < rank t.task_id) :
    ∃ sorted : List PTask,
      sort_tasks_by_dependencies tasks = some sorted
      ∧ sorted.Perm tasks
      ∧ (∀ pre t post, sorted = pre ++ t :: post →
          ∀ d ∈ t.dependencies, d ∈ pre.map PTask.task_id)
      ∧ (∀ pre t post, sorted = pre ++ t :: post →
          scan_pick tasks (pre.map PTask.task_id) = some t)
      ∧ ∃ (rm : ResultMap) (s' : SessionMemory),
          execute_plan reg session tasks = some (rm, s')
          ∧ rm.map Prod.fst = sorted.map PTask.task_id := by
  obtain ⟨sorted, hs, hlen, hmem, hnd, hpickdec⟩ :=
    sort_tasks_aux_total tasks rank hnodup hclosed hrank
      (tasks.length + 1) []
      (by intro t ht; exact absurd ht (List.not_mem_nil t))
      (by simp)
      (by intro pre t post h; simp at h)
      (by omega)
  have hperm : sorted.Perm tasks := by
    have hsub : sorted ⊆ tasks := fun u hu => hmem u hu
    have hndel : sorted.Nodup := hnd.of_map
    exact (List.subperm_of_subset hndel hsub).perm_of_length_le (by omega)
  have hdeps : ∀ pre t post, sorted = pre ++ t :: post →
      ∀ d ∈ t.dependencies, d ∈ pre.map PTask.task_id := by
    intro pre t post hdec d hd
    have hcp := List.find?_some (hpickdec pre t post hdec)
    rw [can_pick, Bool.and_eq_true] at hcp
    have := List.all_eq_true.mp hcp.2 d hd
    simpa [List.contains] using this
  have hkeys : ((run_tasks reg sorted [] session).1).map Prod.fst
      = sorted.map PTask.task_id := by
    have := run_tasks_keys reg sorted [] session
      (by intro u _; rfl) hnd
    simpa using this
  refine ⟨sorted, hs, hperm, hdeps, hpickdec, ?_⟩
  refine ⟨(run_tasks reg sorted [] session).1,
          (run_tasks reg sorted [] session).2, ?_, hkeys⟩
  rw [execute_plan, sort_tasks_by_dependencies, hs]
  rfl

/-- C1 witness: the theorem applied to the concrete two-task plan
`a` (no dependencies) and `b` (depends on `a`), with rank `a ↦ 0`,
`b ↦ 1`, the empty registry and a fresh session. -/
theorem c1_execute_plan_correct_witness :
    ∃ sorted : List PTask,
      sort_tasks_by_dependencies
          [⟨("a"), ("fetch"), PyFields.nil, []⟩,
           ⟨("b"), ("signals"), PyFields.nil, [("a")]⟩] = some sorted
      ∧ sorted.Perm
          [⟨("a"), ("fetch"), PyFields.nil, []⟩,
           ⟨("b"), ("signals"), PyFields.nil, [("a")]⟩]
      ∧ (∀ pre t post, sorted = pre ++ t :: post →
          ∀ d ∈ t.dependencies, d ∈ pre.map PTask.task_id)
      ∧ (∀ pre t post, sorted = pre ++ t :: post →
          scan_pick
            [⟨("a"), ("fetch"), PyFields.nil, []⟩,
             ⟨("b"), ("signals"), PyFields.nil, [("a")]⟩]
            (pre.map PTask.task_id) = some t)
      ∧ ∃ (rm : ResultMap) (s' : SessionMemory),
          execute_plan [] SessionMemory.init
              [⟨("a"), ("fetch"), PyFields.nil, []⟩,
               ⟨("b"), ("signals"), PyFields.nil, [("a")]⟩]
            = some (rm, s')
          ∧ rm.map Prod.fst = sorted.map PTask.task_id :=
  c1_execute_plan_correct
    [⟨("a"), ("fetch"), PyFields.nil, []⟩,
     ⟨("b"), ("signals"), PyFields.nil, [("a")]⟩]
    (fun s => if s = ("b") then 1 else 0) [] SessionMemory.init
    (by decide) (by decide) (by decide)
